import Mathlib

/-!
Verification development for the mac_cleaner pipeline (src/main.py).

The embedding models the classification-and-cleanup pipeline:
the oracle client `classify_file_with_openai` (bounded retry loop with
fail-safe fallback), the worker-pool result production, the thread-safe
aggregation into per-program buckets (`cleanup_files`, lines 301-315),
the pure selection step (`display_and_filter_files`), and the backup
mover (`move_to_backup`) including its dry-run behavior.

Python dicts decoded from JSON are modelled as association lists over a
scalar JSON value type: the client only ever compares decoded field
values with string literals or branches on their truthiness, so nested
containers inside a decoded object add nothing to the claims considered
here.  Filesystem paths handed to the mover are modelled as lists of
path components (the components between the slashes of an absolute
POSIX path); file sizes (floats in the source) are modelled as naturals
since no claim computes with them.
-/

namespace MacCleaner

/-- Scalar JSON value as decoded by json.loads: null, boolean, number
or string.  Numbers are modelled as integers. -/
inductive JVal where
  | null
  | jbool (b : Bool)
  | jnum (n : Int)
  | jstr (s : String)
deriving DecidableEq, Repr

/-- Python truthiness of a decoded scalar, as used by
`if not classification["important"]` (src/main.py line 308):
None, False, 0 and the empty string are falsy, everything else truthy. -/
def JVal.truthy : JVal → Bool
  | .null => false
  | .jbool b => b
  | .jnum n => n != 0
  | .jstr s => s != ""

/-- Top-level result of json.loads on the oracle's reply: a scalar, an
array of scalars, or an object mapping string keys to scalars. -/
inductive JsonTop where
  | scalar (v : JVal)
  | arr (xs : List JVal)
  | obj (fields : List (String × JVal))
deriving DecidableEq, Repr

/-- A decoded JSON object (Python dict), e.g. a classification verdict. -/
abbrev JObj := List (String × JVal)

/-- Dict lookup, `d[k]` for a key that is present (first match). -/
def lookupField : JObj → String → Option JVal
  | [], _ => none
  | (k', v) :: rest, k => if k' == k then some v else lookupField rest k

/-- Dict lookup with null default; the classifications produced by the
client always contain the accessed keys, so the default is never hit. -/
def getField (fs : JObj) (k : String) : JVal :=
  (lookupField fs k).getD JVal.null

/-- Python dict assignment `d[k] = v`: overwrite the entry in place if
the key exists, append it otherwise. -/
def setField : JObj → String → JVal → JObj
  | [], k, v => [(k, v)]
  | (k', v') :: rest, k, v =>
      if k' == k then (k, v) :: rest else (k', v') :: setField rest k v

/-- Key-membership test `k in d` on a dict. -/
def hasKey (fs : JObj) (k : String) : Bool :=
  fs.any (fun p => p.1 == k)

/-- The three fields required of an oracle verdict (src/main.py line 164). -/
def REQUIRED_KEYS : List String := ["important", "importance", "reason"]

/-- Check `all(key in result for key in ["important", "importance", "reason"])`
on a decoded object. -/
def hasAllKeys (fs : JObj) : Bool :=
  REQUIRED_KEYS.all (hasKey fs)

/-- Membership of the importance value in `["Low", "Medium", "High"]`
(src/main.py line 165); a Python `in` test against a list of strings
holds exactly when the value is one of those strings. -/
def importanceValid : JVal → Bool
  | .jstr s => s == "Low" || s == "Medium" || s == "High"
  | _ => false

/-- The fail-safe verdict `{"important": True, "importance": "High",
"reason": ...}` returned on every error path (src/main.py lines 171,
174, 180, 183). -/
def failSafe (reason : String) : JObj :=
  [("important", JVal.jbool true), ("importance", JVal.jstr "High"),
   ("reason", JVal.jstr reason)]

/-- Placeholder for str(e) of the TypeError Python raises when the
decoded reply is not a dict yet is subscripted or probed with `in`;
that exception is caught by the outer handler (src/main.py line 178). -/
def TYPE_ERROR_MSG : String := "TypeError"

/-- List-prefix test (used for path components and substring search). -/
def isPrefOf {α : Type} [DecidableEq α] : List α → List α → Bool
  | [], _ => true
  | _ :: _, [] => false
  | a :: as, b :: bs => if a = b then isPrefOf as bs else false

/-- Substring occurrence test on character lists (Python `pat in s`). -/
def containsSub : List Char → List Char → Bool
  | [], pat => pat.isEmpty
  | c :: rest, pat => isPrefOf pat (c :: rest) || containsSub rest pat

/-- Python `pat in s` on strings. -/
def strContains (s pat : String) : Bool :=
  containsSub s.data pat.data

/-- ASCII lowercase of one character, as str.lower does for the ASCII
program names and paths involved. -/
def lowerChar (c : Char) : Char :=
  if 65 ≤ c.toNat ∧ c.toNat ≤ 90 then Char.ofNat (c.toNat + 32) else c

/-- Python str.lower on a string. -/
def strLower (s : String) : String :=
  String.mk (s.data.map lowerChar)

/-- Outcome of one attempt of the oracle exchange, as distinguished by
the except-clauses of src/main.py lines 150-180: a rate-limit signal, a
transport error, a reply json.loads rejects, or a decoded JSON value. -/
inductive OracleReply where
  | rateLimit
  | apiError (msg : String)
  | unparsable (msg : String)
  | parsed (v : JsonTop)
deriving DecidableEq, Repr

/-- Handling of a successfully transported, decoded reply
(src/main.py lines 161-174): an object with the three required keys has
its importance normalized to "Medium" when invalid and is returned
otherwise untouched; an object missing a key is replaced by the
fail-safe verdict; a non-object reply either fails the key probe
("Invalid JSON structure") or raises a TypeError that the outer handler
converts to the fail-safe "API error" verdict. -/
def processParsed : JsonTop → JObj
  | .obj fs =>
      if hasAllKeys fs then
        if importanceValid (getField fs "importance") then fs
        else setField fs "importance" (JVal.jstr "Medium")
      else failSafe "Invalid JSON structure"
  | .scalar (.jstr s) =>
      if REQUIRED_KEYS.all (fun k => strContains s k) then
        failSafe ("API error: " ++ TYPE_ERROR_MSG)
      else failSafe "Invalid JSON structure"
  | .scalar _ => failSafe ("API error: " ++ TYPE_ERROR_MSG)
  | .arr xs =>
      if REQUIRED_KEYS.all (fun k => xs.contains (JVal.jstr k)) then
        failSafe ("API error: " ++ TYPE_ERROR_MSG)
      else failSafe "Invalid JSON structure"

/-- One iteration of the retry loop: `none` means the attempt hit the
rate limit and the loop continues after the cooldown; `some c` means the
function returns classification `c` now. -/
def classifyStep : OracleReply → Option JObj
  | .rateLimit => none
  | .apiError e => some (failSafe ("API error: " ++ e))
  | .unparsable e => some (failSafe ("JSON parse error: " ++ e))
  | .parsed v => some (processParsed v)

/-- Observable events of one client invocation: an attempt numbered by
loop index, the 5-second rate-limit cooldown sleep, and the 0.1-second
inter-attempt sleep (src/main.py lines 149, 177, 181). -/
inductive ClientEvent where
  | attempt (i : Nat)
  | sleepCooldown
  | sleepShort
deriving DecidableEq, Repr

/-- The retry loop `for attempt in range(n)` starting at attempt index
`start` with `n` attempts remaining, driven by the per-attempt oracle
behavior; returns the event trace and the classification.  Exhausting
the attempts returns the fail-safe verdict (src/main.py line 183). -/
def classifyTrace (oracle : Nat → OracleReply) : Nat → Nat → List ClientEvent × JObj
  | _, 0 => ([], failSafe "Failed after retries")
  | start, n + 1 =>
      match classifyStep (oracle start) with
      | some c => ([ClientEvent.attempt start], c)
      | none =>
          let r := classifyTrace oracle (start + 1) n
          (ClientEvent.attempt start :: ClientEvent.sleepCooldown ::
             ClientEvent.sleepShort :: r.1, r.2)

/-- The oracle client (src/main.py lines 128-183): three attempts from
index 0; always returns a classification dict. -/
def classify_file_with_openai (oracle : Nat → OracleReply) : JObj :=
  (classifyTrace oracle 0 3).2

/-- Number of attempt events in a client trace. -/
def attemptCount (evs : List ClientEvent) : Nat :=
  (evs.filter fun e => match e with | .attempt _ => true | _ => false).length

/-- A scanned filesystem entry as produced by `get_file_metadata`
(src/main.py lines 78-83). -/
structure FileRecord where
  path : String
  size_mb : Nat
  mtime : String
  is_dir : Bool
deriving DecidableEq, Repr

/-- A FileRecord with the classification fields attached, the shape the
aggregator stores (`metadata["importance"] = ...`, src/main.py
lines 310-311). -/
structure ClassifiedRecord where
  path : String
  size_mb : Nat
  mtime : String
  is_dir : Bool
  importance : JVal
  reason : JVal
deriving DecidableEq, Repr

/-- Attach a classification's importance and reason to a record. -/
def mkClassified (m : FileRecord) (cls : JObj) : ClassifiedRecord :=
  { path := m.path, size_mb := m.size_mb, mtime := m.mtime,
    is_dir := m.is_dir, importance := getField cls "importance",
    reason := getField cls "reason" }

/-- The known-program list (src/main.py line 31). -/
def KNOWN_PROGRAMS : List String := ["Android Studio", "Transporter"]

/-- Program attribution (src/main.py lines 185-191): the first known
program whose lowercased name occurs in the lowercased path, else the
fallback bucket. -/
def get_program_name (file_path : String) : String :=
  match KNOWN_PROGRAMS.find?
      (fun program => strContains (strLower file_path) (strLower program)) with
  | some p => p
  | none => "Others"

/-- The keys of the program_files dict created at src/main.py line 296. -/
def standardKeys : List String := KNOWN_PROGRAMS ++ ["Others"]

/-- Aggregator state: the to_delete list, the per-program buckets and
the running size total (src/main.py lines 295-297). -/
structure AggState where
  to_delete : List ClassifiedRecord
  program_files : List (String × List ClassifiedRecord)
  total_size : Nat
deriving DecidableEq, Repr

/-- Initial aggregator state:
`{program: [] for program in KNOWN_PROGRAMS + ["Others"]}`. -/
def initAggState : AggState :=
  { to_delete := [],
    program_files := standardKeys.map (fun p => (p, [])),
    total_size := 0 }

/-- `program_files[program].append(record)`: append to the bucket of an
existing key, leaving all other buckets unchanged. -/
def appendToProgram (pf : List (String × List ClassifiedRecord)) (p : String)
    (r : ClassifiedRecord) : List (String × List ClassifiedRecord) :=
  pf.map fun kv => if kv.1 == p then (kv.1, kv.2 ++ [r]) else kv

/-- Processing of one completed (record, classification) pair under the
lock (src/main.py lines 306-315): a truthy `important` field discards
the pair; a falsy one appends the classified record to to_delete and to
its program's bucket and adds its size to the total. -/
def aggStep (st : AggState) (pair : FileRecord × JObj) : AggState :=
  if (getField pair.2 "important").truthy then st
  else
    let r := mkClassified pair.1 pair.2
    { to_delete := st.to_delete ++ [r],
      program_files :=
        appendToProgram st.program_files (get_program_name pair.1.path) r,
      total_size := st.total_size + pair.1.size_mb }

/-- Fold of the aggregator over the completed pairs in their arrival
order (the as_completed loop, src/main.py lines 305-315). -/
def aggregateAll (l : List (FileRecord × JObj)) : AggState :=
  l.foldl aggStep initAggState

/-- Bucket of a program in a program_files mapping (empty when the key
is absent, which never happens for keys returned by
`get_program_name`). -/
def pfBucket (pf : List (String × List ClassifiedRecord)) (p : String) :
    List ClassifiedRecord :=
  match pf.find? (fun kv => kv.1 == p) with
  | some kv => kv.2
  | none => []

/-- Bucket of a program in an aggregator state. -/
def bucketOf (st : AggState) (p : String) : List ClassifiedRecord :=
  pfBucket st.program_files p

/-- The (record, classification) pairs the worker pool hands to the
as_completed loop: one pair per submitted record, the classification
obtained from that submission's oracle behavior (src/main.py
lines 301-306).  `oracle i a` is the oracle's reply to attempt `a` of
submission `i`. -/
def poolResults (oracle : Nat → Nat → OracleReply) :
    Nat → List FileRecord → List (FileRecord × JObj)
  | _, [] => []
  | i, f :: fs =>
      (f, classify_file_with_openai (oracle i)) :: poolResults oracle (i + 1) fs

/-- Membership of a record's importance value in the chosen
delete-level list (`file["importance"] in levels_to_delete`,
src/main.py line 280); the levels are strings, so a non-string
importance value never matches. -/
def tierMatches (v : JVal) (levels : List String) : Bool :=
  match v with
  | .jstr s => levels.contains s
  | _ => false

/-- The selection step (src/main.py lines 208-290) with the interactive
choices already resolved: `programs_to_keep` is the operator's keep
set and `levels_to_delete p` the delete-tier set chosen for a non-kept
program `p`.  Empty buckets and kept programs are skipped; from each
remaining bucket exactly the records whose importance is in that
program's delete set are collected, in order. -/
def display_and_filter_files (program_files : List (String × List ClassifiedRecord))
    (programs_to_keep : List String) (levels_to_delete : String → List String) :
    List ClassifiedRecord :=
  program_files.flatMap fun kv =>
    if kv.2.isEmpty || programs_to_keep.contains kv.1 then []
    else kv.2.filter (fun f => tierMatches f.importance (levels_to_delete kv.1))

/-- Name of the backup directory under the home directory
(src/main.py line 20). -/
def BACKUP_DIR_NAME : String := "SystemDataCleanupBackup"

/-- Components of BACKUP_DIR = `~/SystemDataCleanupBackup`. -/
def backupDir (home : List String) : List String :=
  home ++ [BACKUP_DIR_NAME]

/-- Length of the componentwise common prefix of two component lists,
as os.path.commonprefix computes inside os.path.relpath. -/
def commonPrefixLen : List String → List String → Nat
  | a :: as, b :: bs => if a = b then commonPrefixLen as bs + 1 else 0
  | _, _ => 0

/-- os.path.relpath(path, start) on components of absolute paths:
climb out of the uncommon part of `start` with ".." components, then
descend into the uncommon part of `path`; the current directory when
the two coincide. -/
def relpath (path start : List String) : List String :=
  let i := commonPrefixLen start path
  let rel := List.replicate (start.length - i) ".." ++ path.drop i
  if rel.isEmpty then ["."] else rel

/-- POSIX resolution of "." and ".." components against the root. -/
def stepResolve (acc : List String) (c : String) : List String :=
  if c = ".." then acc.dropLast else if c = "." then acc else acc ++ [c]

/-- Resolve a component list to the normalized absolute path it denotes. -/
def resolveComponents (cs : List String) : List String :=
  cs.foldl stepResolve []

/-- Filesystem effects of the cleanup phase: directory creation
(os.makedirs), the move (shutil.move), and the two per-record log
lines. -/
inductive FsAction where
  | mkdirs (dir : List String)
  | move (src dst : List String)
  | logMoved (src dst : List String)
  | logWouldMove (src : List String)
deriving DecidableEq, Repr

/-- The backup mover (src/main.py lines 193-206) on a componentized
path: compute the path relative to home, join it onto the backup root,
create the destination's parent directories, move unless in dry-run
mode, and log.  Returns the emitted actions and the destination. -/
def move_to_backup (home : List String) (dryRun : Bool)
    (file_path : List String) : List FsAction × List String :=
  let rel_path := relpath file_path home
  let backup_path := backupDir home ++ rel_path
  let backup_dirname := backup_path.dropLast
  ([FsAction.mkdirs backup_dirname] ++
     (if dryRun then [] else [FsAction.move file_path backup_path]) ++
     [FsAction.logMoved file_path backup_path],
   backup_path)

/-- The per-record move loop of cleanup_files (src/main.py
lines 343-347): in dry-run mode each selected record only produces a
"[DRY RUN] Would move" log line and `move_to_backup` is never invoked;
otherwise the mover runs for each record. -/
def cleanupMovePhase (home : List String) (dryRun : Bool)
    (to_move : List (List String)) : List FsAction :=
  to_move.flatMap fun p =>
    if dryRun then [FsAction.logWouldMove p]
    else (move_to_backup home false p).1

/-- Abstract filesystem: the set of present files and created
directories, each named by resolved components. -/
structure FsState where
  files : List (List String)
  dirs : List (List String)
deriving DecidableEq, Repr

/-- Effect of one action on the abstract filesystem; log lines change
nothing. -/
def applyAction (fs : FsState) : FsAction → FsState
  | .mkdirs d => { fs with dirs := fs.dirs ++ [d] }
  | .move src dst =>
      { fs with files := (fs.files.filter (fun f => f ≠ src)) ++ [dst] }
  | .logMoved _ _ => fs
  | .logWouldMove _ => fs

/-- Effect of an action sequence on the abstract filesystem. -/
def applyActions (fs : FsState) (acts : List FsAction) : FsState :=
  acts.foldl applyAction fs

/-- The scanner's fixed root set (src/main.py lines 90-96), as
component paths: two roots under the home directory and three outside
it. -/
def SCAN_DIRS (home : List String) : List (List String) :=
  [home ++ ["Library", "Caches"],
   ["Library", "Caches"],
   home ++ ["Library", "Logs"],
   ["private", "var", "tmp"],
   ["private", "var", "log"]]

/-- The scanner roots that are not under the home directory. -/
def nonHomeRoots : List (List String) :=
  [["Library", "Caches"], ["private", "var", "tmp"], ["private", "var", "log"]]

/-- An oracle reply on which the attempt returns the oracle's own
verdict rather than a fail-safe: a decoded object with the three
required keys. -/
def replySucceeds : OracleReply → Bool
  | .parsed (.obj fs) => hasAllKeys fs
  | _ => false

/-- An invocation errors or exhausts its retries: no attempt that the
retry loop reaches (every earlier attempt was rate-limited) carries a
successful reply. -/
def errorsOut (oracle : Nat → OracleReply) : Prop :=
  ∀ i, i < 3 → (∀ j, j < i → oracle j = OracleReply.rateLimit) →
    replySucceeds (oracle i) = false

/-- The per-pair contribution used to characterize the final buckets:
a pair lands in program p's bucket exactly when its important field is
falsy and its path is attributed to p. -/
def keepFor (p : String) (pr : FileRecord × JObj) : Option ClassifiedRecord :=
  if (getField pr.2 "important").truthy = false ∧ get_program_name pr.1.path = p
  then some (mkClassified pr.1 pr.2) else none

/- Witness inputs: small concrete batches and oracle behaviors used to
instantiate the hypothesis-bearing theorems below. -/

/-- A concrete two-record batch. -/
def wFiles : List FileRecord :=
  [{ path := "/Users/x/Library/Caches/Android Studio/f.bin", size_mb := 5,
     mtime := "2024-01-01", is_dir := false },
   { path := "/private/var/tmp/b.log", size_mb := 3,
     mtime := "2024-01-02", is_dir := false }]

/-- A concrete well-formed non-important verdict object. -/
def wVerdict : JObj :=
  [("important", JVal.jbool false), ("importance", JVal.jstr "Low"),
   ("reason", JVal.jstr "cache")]

/-- A concrete oracle behavior: the first submission hits a transport
error, every other submission returns the well-formed verdict. -/
def wOracle : Nat → Nat → OracleReply :=
  fun i _ => if i == 0 then OracleReply.apiError "boom"
             else OracleReply.parsed (JsonTop.obj wVerdict)

/-- Pool results of the concrete batch under the concrete oracle. -/
def wResults : List (FileRecord × JObj) :=
  poolResults wOracle 0 wFiles

/-- First record of the concrete batch (attributed to Android Studio). -/
def wRec1 : FileRecord :=
  { path := "/Users/x/Library/Caches/Android Studio/f.bin", size_mb := 5,
    mtime := "2024-01-01", is_dir := false }

/-- A concrete oracle behavior that always answers the well-formed
non-important verdict. -/
def w5Oracle : Nat → Nat → OracleReply :=
  fun _ _ => OracleReply.parsed (JsonTop.obj wVerdict)

/-- Pool results of the concrete batch under the always-well-formed
oracle. -/
def w5Results : List (FileRecord × JObj) :=
  poolResults w5Oracle 0 wFiles

/-- Event-trace prefix produced by k consecutive rate-limited attempts
starting at attempt index `start`: each rate-limited attempt is
followed by the 5-second cooldown sleep and the 0.1-second
inter-attempt sleep before the next attempt begins. -/
def rlPrefix (start : Nat) : Nat → List ClientEvent
  | 0 => []
  | k + 1 => ClientEvent.attempt start :: ClientEvent.sleepCooldown ::
      ClientEvent.sleepShort :: rlPrefix (start + 1) k

/-- A concrete oracle behavior: rate-limited first attempt, transport
error on every later attempt. -/
def w2Oracle : Nat → OracleReply :=
  fun i => if i == 0 then OracleReply.rateLimit else OracleReply.apiError "boom"

end MacCleaner

namespace MacCleaner

/- Helper lemmas. -/

theorem poolResults_length (oracle : Nat → Nat → OracleReply) :
    ∀ (i : Nat) (files : List FileRecord),
      (poolResults oracle i files).length = files.length := by
  intro i files
  induction files generalizing i with
  | nil => rfl
  | cons f fs ih => simp [poolResults, ih]

theorem poolResults_map_fst (oracle : Nat → Nat → OracleReply) :
    ∀ (i : Nat) (files : List FileRecord),
      (poolResults oracle i files).map Prod.fst = files := by
  intro i files
  induction files generalizing i with
  | nil => rfl
  | cons f fs ih => simp [poolResults, ih]

/-- C1: for every batch of N FileRecords submitted to the worker pool,
exactly N (FileRecord, Classification) pairs are produced — one per
input record, in some order — even when some oracle calls fail or
exhaust retries. -/
theorem c1_pool_exact_output (files : List FileRecord)
    (oracle : Nat → Nat → OracleReply) (arrived : List (FileRecord × JObj))
    (h : List.Perm arrived (poolResults oracle 0 files)) :
    arrived.length = files.length ∧ List.Perm (arrived.map Prod.fst) files := by
  constructor
  · exact h.length_eq.trans (poolResults_length oracle 0 files)
  · have hm := h.map Prod.fst
    rwa [poolResults_map_fst] at hm

/-- C1 witness: a concrete two-record batch whose first oracle call
fails, with results arriving in reverse submission order, still
produces two pairs covering both inputs. -/
theorem c1_pool_exact_output_witness :
    wResults.reverse.length = wFiles.length ∧
      List.Perm (wResults.reverse.map Prod.fst) wFiles :=
  c1_pool_exact_output wFiles wOracle wResults.reverse
    (List.reverse_perm wResults)

theorem attemptCount_trace_le (oracle : Nat → OracleReply) :
    ∀ (n start : Nat), attemptCount (classifyTrace oracle start n).1 ≤ n := by
  intro n
  induction n with
  | zero => intro start; simp [classifyTrace, attemptCount]
  | succ n ih =>
    intro start
    cases h : classifyStep (oracle start) with
    | some c => simp [classifyTrace, h, attemptCount]
    | none =>
      have hrec := ih (start + 1)
      simp only [classifyTrace, h, attemptCount, List.filter, List.length] at hrec ⊢
      omega

theorem classifyTrace_head (oracle : Nat → OracleReply) (start n : Nat) :
    ∃ t, (classifyTrace oracle start (n + 1)).1 = ClientEvent.attempt start :: t := by
  cases h : classifyStep (oracle start) with
  | some c => exact ⟨[], by simp [classifyTrace, h]⟩
  | none =>
    exact ⟨ClientEvent.sleepCooldown :: ClientEvent.sleepShort ::
      (classifyTrace oracle (start + 1) n).1, by simp [classifyTrace, h]⟩

theorem classifyTrace_after_rateLimits (oracle : Nat → OracleReply) :
    ∀ (k n start : Nat), k ≤ n →
      (∀ j, j < k → oracle (start + j) = OracleReply.rateLimit) →
      classifyTrace oracle start n =
        (rlPrefix start k ++ (classifyTrace oracle (start + k) (n - k)).1,
         (classifyTrace oracle (start + k) (n - k)).2) := by
  intro k
  induction k with
  | zero => intro n start _ _; simp [rlPrefix]
  | succ k ih =>
    intro n start hkn hrl
    obtain ⟨m, rfl⟩ : ∃ m, n = m + 1 := ⟨n - 1, by omega⟩
    have h0 : oracle start = OracleReply.rateLimit := by
      simpa using hrl 0 (Nat.succ_pos k)
    have hstep : classifyStep (oracle start) = none := by simp [h0, classifyStep]
    have hrl' : ∀ j, j < k → oracle (start + 1 + j) = OracleReply.rateLimit := by
      intro j hj
      have := hrl (j + 1) (by omega)
      rwa [show start + (j + 1) = start + 1 + j by omega] at this
    have hrec := ih m (start + 1) (by omega) hrl'
    rw [show start + 1 + k = start + (k + 1) by omega,
      show m - k = m + 1 - (k + 1) by omega] at hrec
    rw [show classifyTrace oracle start (m + 1) =
        (ClientEvent.attempt start :: ClientEvent.sleepCooldown ::
           ClientEvent.sleepShort :: (classifyTrace oracle (start + 1) m).1,
         (classifyTrace oracle (start + 1) m).2) from by
      simp [classifyTrace, hstep]]
    rw [hrec]
    rfl

/-- C2: per invocation, at most 3 attempts are made; a rate-limited
attempt with attempts remaining is retried after the fixed cooldown
(each rate-limited attempt in the trace prefix is followed by the
cooldown sleep before the next attempt); a transport or parse failure
at any reached attempt is never retried — the trace stops at that
attempt — and immediately yields the corresponding fail-safe
classification; and exhausting all 3 attempts on rate limits yields
the fail-safe classification. -/
theorem c2_retry_policy (oracle : Nat → OracleReply) :
    attemptCount (classifyTrace oracle 0 3).1 ≤ 3 ∧
    (∀ i, i + 1 < 3 → (∀ j, j ≤ i → oracle j = OracleReply.rateLimit) →
      ∃ t, (classifyTrace oracle 0 3).1 =
        rlPrefix 0 (i + 1) ++ ClientEvent.attempt (i + 1) :: t) ∧
    (∀ i e, i < 3 → (∀ j, j < i → oracle j = OracleReply.rateLimit) →
      oracle i = OracleReply.apiError e →
      classifyTrace oracle 0 3 =
        (rlPrefix 0 i ++ [ClientEvent.attempt i],
         failSafe ("API error: " ++ e))) ∧
    (∀ i e, i < 3 → (∀ j, j < i → oracle j = OracleReply.rateLimit) →
      oracle i = OracleReply.unparsable e →
      classifyTrace oracle 0 3 =
        (rlPrefix 0 i ++ [ClientEvent.attempt i],
         failSafe ("JSON parse error: " ++ e))) ∧
    ((∀ j, j < 3 → oracle j = OracleReply.rateLimit) →
      classifyTrace oracle 0 3 =
        (rlPrefix 0 3, failSafe "Failed after retries")) := by
  have hshift : ∀ (i : Nat), (∀ j, j < i → oracle j = OracleReply.rateLimit) →
      ∀ j, j < i → oracle (0 + j) = OracleReply.rateLimit := by
    intro i h j hj
    rw [Nat.zero_add]
    exact h j hj
  have hsettle : ∀ (i : Nat) (c : JObj), i < 3 →
      (∀ j, j < i → oracle j = OracleReply.rateLimit) →
      classifyStep (oracle i) = some c →
      classifyTrace oracle 0 3 = (rlPrefix 0 i ++ [ClientEvent.attempt i], c) := by
    intro i c hi hrl hstep
    rw [classifyTrace_after_rateLimits oracle i 3 0 (by omega) (hshift i hrl)]
    obtain ⟨m, hm⟩ : ∃ m, 3 - i = m + 1 := ⟨3 - i - 1, by omega⟩
    rw [Nat.zero_add, hm,
      show classifyTrace oracle i (m + 1) = ([ClientEvent.attempt i], c) from by
        simp [classifyTrace, hstep]]
  refine ⟨attemptCount_trace_le oracle 3 0, ?_, ?_, ?_, ?_⟩
  · intro i hi hrl
    have hrl' : ∀ j, j < i + 1 → oracle j = OracleReply.rateLimit :=
      fun j hj => hrl j (by omega)
    rw [classifyTrace_after_rateLimits oracle (i + 1) 3 0 (by omega)
      (hshift (i + 1) hrl')]
    obtain ⟨m, hm⟩ : ∃ m, 3 - (i + 1) = m + 1 := ⟨3 - (i + 1) - 1, by omega⟩
    rw [Nat.zero_add, hm]
    obtain ⟨t, ht⟩ := classifyTrace_head oracle (i + 1) m
    exact ⟨t ++ [], by rw [ht]; simp⟩
  · intro i e hi hrl hfail
    exact hsettle i (failSafe ("API error: " ++ e)) hi hrl
      (by simp [hfail, classifyStep])
  · intro i e hi hrl hfail
    exact hsettle i (failSafe ("JSON parse error: " ++ e)) hi hrl
      (by simp [hfail, classifyStep])
  · intro hrl
    rw [classifyTrace_after_rateLimits oracle 3 3 0 (by omega) (hshift 3 hrl)]
    rfl

/-- C2 witness: an oracle that rate-limits the first attempt and then
hits a transport error retries once after the cooldown and stops at
attempt 1 with the fail-safe verdict; an oracle that rate-limits every
attempt exhausts the three attempts and yields the fail-safe
classification. -/
theorem c2_retry_policy_witness :
    classifyTrace w2Oracle 0 3 =
      (rlPrefix 0 1 ++ [ClientEvent.attempt 1],
       failSafe ("API error: " ++ "boom")) ∧
    classifyTrace (fun _ => OracleReply.rateLimit) 0 3 =
      (rlPrefix 0 3, failSafe "Failed after retries") := by
  constructor
  · exact (c2_retry_policy w2Oracle).2.2.1 1 "boom" (by decide)
      (by decide) (by decide)
  · exact (c2_retry_policy (fun _ => OracleReply.rateLimit)).2.2.2.2
      (fun _ _ => rfl)

theorem lookupField_setField_self (fs : JObj) (k : String) (v : JVal) :
    lookupField (setField fs k v) k = some v := by
  induction fs with
  | nil => simp [setField, lookupField]
  | cons p rest ih =>
    obtain ⟨k', v'⟩ := p
    by_cases h : k' = k
    · simp [setField, h, lookupField]
    · simp [setField, h, lookupField, ih]

theorem lookupField_setField_of_ne (fs : JObj) (k : String) (v : JVal)
    (k' : String) (h : k' ≠ k) :
    lookupField (setField fs k v) k' = lookupField fs k' := by
  have hne : k ≠ k' := Ne.symm h
  induction fs with
  | nil => simp [setField, lookupField, hne]
  | cons p rest ih =>
    obtain ⟨a, b⟩ := p
    by_cases hb : a = k'
    · subst hb
      simp [setField, lookupField, h]
    · by_cases ha : a = k
      · subst ha
        simp [setField, lookupField, hne, hb]
      · simp [setField, lookupField, ha, hb, ih]

/-- C3: a decoded object carrying all three required fields has an
invalid importance tier normalized to "Medium" and is otherwise
returned as-is (a valid tier leaves it untouched); an unparsable reply
or an object missing a required field instead yields the fail-safe
classification with important = true and importance = "High". -/
theorem c3_response_validation (fs : JObj) :
    (hasAllKeys fs = true →
      importanceValid (getField fs "importance") = false →
        processParsed (JsonTop.obj fs) =
          setField fs "importance" (JVal.jstr "Medium") ∧
        lookupField (processParsed (JsonTop.obj fs)) "importance" =
          some (JVal.jstr "Medium") ∧
        ∀ k, k ≠ "importance" →
          lookupField (processParsed (JsonTop.obj fs)) k = lookupField fs k) ∧
    (hasAllKeys fs = true →
      importanceValid (getField fs "importance") = true →
        processParsed (JsonTop.obj fs) = fs) ∧
    (hasAllKeys fs = false →
      processParsed (JsonTop.obj fs) = failSafe "Invalid JSON structure") ∧
    (∀ e, classifyStep (OracleReply.unparsable e) =
      some (failSafe ("JSON parse error: " ++ e))) ∧
    (∀ r, getField (failSafe r) "important" = JVal.jbool true ∧
      getField (failSafe r) "importance" = JVal.jstr "High") := by
  refine ⟨?_, ?_, ?_, fun e => rfl, fun r => ⟨rfl, rfl⟩⟩
  · intro hk hv
    have hp : processParsed (JsonTop.obj fs) =
        setField fs "importance" (JVal.jstr "Medium") := by
      simp [processParsed, hk, hv]
    refine ⟨hp, ?_, ?_⟩
    · rw [hp]; exact lookupField_setField_self fs "importance" (JVal.jstr "Medium")
    · intro k hkk
      rw [hp]; exact lookupField_setField_of_ne fs "importance" (JVal.jstr "Medium") k hkk
  · intro hk hv
    simp [processParsed, hk, hv]
  · intro hk
    simp [processParsed, hk]

/-- C3 witness: a concrete object with an out-of-range tier is
normalized to "Medium" keeping the other fields, and a concrete
unparsable reply yields the fail-safe classification. -/
theorem c3_response_validation_witness :
    (processParsed (JsonTop.obj
        [("important", JVal.jbool false), ("importance", JVal.jstr "Sorta"),
         ("reason", JVal.jstr "r")]) =
      setField
        [("important", JVal.jbool false), ("importance", JVal.jstr "Sorta"),
         ("reason", JVal.jstr "r")] "importance" (JVal.jstr "Medium")) ∧
    lookupField (processParsed (JsonTop.obj
        [("important", JVal.jbool false), ("importance", JVal.jstr "Sorta"),
         ("reason", JVal.jstr "r")])) "important" =
      some (JVal.jbool false) ∧
    classifyStep (OracleReply.unparsable "bad json") =
      some (failSafe ("JSON parse error: " ++ "bad json")) := by
  have h := c3_response_validation
    [("important", JVal.jbool false), ("importance", JVal.jstr "Sorta"),
     ("reason", JVal.jstr "r")]
  refine ⟨(h.1 (by decide) (by decide)).1, ?_, h.2.2.2.1 "bad json"⟩
  rw [(h.1 (by decide) (by decide)).2.2 "important" (by decide)]
  decide

theorem classifyStep_eq_none_iff (r : OracleReply) :
    classifyStep r = none ↔ r = OracleReply.rateLimit := by
  cases r <;> simp [classifyStep]

theorem failSafe_fields (s : String) :
    getField (failSafe s) "important" = JVal.jbool true ∧
      getField (failSafe s) "importance" = JVal.jstr "High" :=
  ⟨rfl, rfl⟩

theorem unsuccessful_step_failSafe (r : OracleReply) (c : JObj)
    (hs : replySucceeds r = false) (hc : classifyStep r = some c) :
    getField c "important" = JVal.jbool true ∧
      getField c "importance" = JVal.jstr "High" := by
  cases r with
  | rateLimit => simp [classifyStep] at hc
  | apiError e =>
    simp only [classifyStep, Option.some.injEq] at hc
    exact hc ▸ failSafe_fields _
  | unparsable e =>
    simp only [classifyStep, Option.some.injEq] at hc
    exact hc ▸ failSafe_fields _
  | parsed v =>
    simp only [classifyStep, Option.some.injEq] at hc
    subst hc
    cases v with
    | obj fields =>
      have hk : hasAllKeys fields = false := by simpa [replySucceeds] using hs
      simp only [processParsed, hk, Bool.false_eq_true, if_false]
      exact failSafe_fields _
    | scalar sv =>
      cases sv with
      | jstr s =>
        simp only [processParsed]
        split
        · exact failSafe_fields _
        · exact failSafe_fields _
      | null => exact failSafe_fields _
      | jbool b => exact failSafe_fields _
      | jnum n => exact failSafe_fields _
    | arr xs =>
      simp only [processParsed]
      split
      · exact failSafe_fields _
      · exact failSafe_fields _

theorem exhaust_failSafe (oracle : Nat → OracleReply) :
    ∀ (n start : Nat),
      (∀ i, i < n →
        (∀ j, j < i → oracle (start + j) = OracleReply.rateLimit) →
        replySucceeds (oracle (start + i)) = false) →
      getField (classifyTrace oracle start n).2 "important" = JVal.jbool true ∧
        getField (classifyTrace oracle start n).2 "importance" = JVal.jstr "High" := by
  intro n
  induction n with
  | zero => intro start _; exact ⟨rfl, rfl⟩
  | succ n ih =>
    intro start h
    cases hc : classifyStep (oracle start) with
    | some c =>
      have hs : replySucceeds (oracle start) = false := by
        have h0 := h 0 (Nat.succ_pos n) (fun j hj => absurd hj (Nat.not_lt_zero j))
        simpa using h0
      have hf := unsuccessful_step_failSafe (oracle start) c hs hc
      simpa [classifyTrace, hc] using hf
    | none =>
      have h' : ∀ i, i < n →
          (∀ j, j < i → oracle (start + 1 + j) = OracleReply.rateLimit) →
          replySucceeds (oracle (start + 1 + i)) = false := by
        intro i hi hj
        have hstep := h (i + 1) (Nat.succ_lt_succ hi) ?_
        · have hidx : start + (i + 1) = start + 1 + i := by omega
          rwa [hidx] at hstep
        · intro j hjlt
          cases j with
          | zero =>
            have : oracle start = OracleReply.rateLimit :=
              (classifyStep_eq_none_iff _).mp hc
            simpa using this
          | succ j' =>
            have hj' := hj j' (by omega)
            have hidx : start + (j' + 1) = start + 1 + j' := by omega
            rwa [hidx]
      have hrec := ih (start + 1) h'
      simpa [classifyTrace, hc] using hrec

/-- C4: an oracle invocation that errors or exhausts its retries yields
a classification with important = true (and importance = "High"), and
the aggregator leaves its state unchanged on receiving such a pair, so
the record never enters the retained ProgramGroup mapping and is never
relocated. -/
theorem c4_failsafe_excluded (oracle : Nat → OracleReply) (m : FileRecord)
    (h : errorsOut oracle) :
    getField (classify_file_with_openai oracle) "important" = JVal.jbool true ∧
    getField (classify_file_with_openai oracle) "importance" = JVal.jstr "High" ∧
    ∀ st : AggState, aggStep st (m, classify_file_with_openai oracle) = st := by
  have key := exhaust_failSafe oracle 3 0 (by
    intro i hi hj
    have := h i hi (by
      intro j hjlt
      have hh := hj j hjlt
      simpa using hh)
    simpa using this)
  refine ⟨key.1, key.2, fun st => ?_⟩
  simp [aggStep, classify_file_with_openai, key.1, JVal.truthy]

/-- C4 witness: an oracle whose every attempt is a transport error
yields the fail-safe verdict and contributes nothing to the aggregator
state. -/
theorem c4_failsafe_excluded_witness :
    getField (classify_file_with_openai (fun _ => OracleReply.apiError "boom"))
        "important" = JVal.jbool true ∧
    aggStep initAggState
        (⟨"/private/var/tmp/b.log", 3, "2024-01-02", false⟩,
          classify_file_with_openai (fun _ => OracleReply.apiError "boom")) =
      initAggState := by
  have h := c4_failsafe_excluded (fun _ => OracleReply.apiError "boom")
    ⟨"/private/var/tmp/b.log", 3, "2024-01-02", false⟩ (by
      intro i _ _
      simp [replySucceeds])
  exact ⟨h.1, h.2.2 initAggState⟩

theorem appendToProgram_map_fst (pf : List (String × List ClassifiedRecord))
    (q : String) (r : ClassifiedRecord) :
    (appendToProgram pf q r).map Prod.fst = pf.map Prod.fst := by
  induction pf with
  | nil => rfl
  | cons kv rest ih =>
    obtain ⟨a, l⟩ := kv
    by_cases ha : a = q <;> simp [appendToProgram, ha] <;>
      simpa [appendToProgram] using ih

theorem pfBucket_cons (a : String) (l : List ClassifiedRecord)
    (rest : List (String × List ClassifiedRecord)) (p : String) :
    pfBucket ((a, l) :: rest) p = if a = p then l else pfBucket rest p := by
  by_cases h : a = p
  · unfold pfBucket
    rw [List.find?_cons_of_pos _ (by simp [h])]
    simp [h]
  · unfold pfBucket
    rw [List.find?_cons_of_neg _ (by simp [h])]
    simp [h]

theorem appendToProgram_cons (a : String) (l : List ClassifiedRecord)
    (rest : List (String × List ClassifiedRecord)) (q : String)
    (r : ClassifiedRecord) :
    appendToProgram ((a, l) :: rest) q r =
      (if a = q then (a, l ++ [r]) else (a, l)) :: appendToProgram rest q r := by
  by_cases h : a = q <;> simp [appendToProgram, h]

theorem pfBucket_appendToProgram_of_ne (pf : List (String × List ClassifiedRecord))
    (q : String) (r : ClassifiedRecord) (p : String) (h : q ≠ p) :
    pfBucket (appendToProgram pf q r) p = pfBucket pf p := by
  induction pf with
  | nil => rfl
  | cons kv rest ih =>
    obtain ⟨a, l⟩ := kv
    rw [appendToProgram_cons]
    by_cases ha : a = q
    · have hap : a ≠ p := by rw [ha]; exact h
      rw [if_pos ha, pfBucket_cons, pfBucket_cons, if_neg hap, if_neg hap, ih]
    · rw [if_neg ha, pfBucket_cons, pfBucket_cons]
      by_cases hap : a = p
      · rw [if_pos hap, if_pos hap]
      · rw [if_neg hap, if_neg hap, ih]

theorem pfBucket_appendToProgram_of_mem (pf : List (String × List ClassifiedRecord))
    (p : String) (r : ClassifiedRecord) (h : p ∈ pf.map Prod.fst) :
    pfBucket (appendToProgram pf p r) p = pfBucket pf p ++ [r] := by
  induction pf with
  | nil => simp at h
  | cons kv rest ih =>
    obtain ⟨a, l⟩ := kv
    rw [appendToProgram_cons]
    by_cases hap : a = p
    · rw [if_pos hap, pfBucket_cons, pfBucket_cons, if_pos hap, if_pos hap]
    · have h' : p ∈ rest.map Prod.fst := by
        simp only [List.map_cons, List.mem_cons] at h
        rcases h with h | h
        · exact absurd h.symm hap
        · exact h
      rw [if_neg hap, pfBucket_cons, pfBucket_cons, if_neg hap, if_neg hap, ih h']

theorem get_program_name_mem (s : String) :
    get_program_name s ∈ standardKeys := by
  unfold get_program_name
  cases hf : KNOWN_PROGRAMS.find?
      (fun program => strContains (strLower s) (strLower program)) with
  | none => simp [standardKeys]
  | some p =>
    have hp := List.mem_of_find?_eq_some hf
    exact List.mem_append_left _ hp

theorem aggStep_map_fst (st : AggState) (pr : FileRecord × JObj) :
    (aggStep st pr).program_files.map Prod.fst =
      st.program_files.map Prod.fst := by
  by_cases ht : (getField pr.2 "important").truthy <;>
    simp [aggStep, ht, appendToProgram_map_fst]

theorem bucket_step (st : AggState) (pr : FileRecord × JObj) (p : String)
    (hkeys : st.program_files.map Prod.fst = standardKeys) :
    bucketOf (aggStep st pr) p = bucketOf st p ++ (keepFor p pr).toList := by
  obtain ⟨m, cls⟩ := pr
  by_cases ht : (getField cls "important").truthy
  · simp [aggStep, ht, keepFor, bucketOf]
  · by_cases hq : get_program_name m.path = p
    · have hmem : p ∈ st.program_files.map Prod.fst := by
        rw [hkeys, ← hq]
        exact get_program_name_mem m.path
      simp only [aggStep, ht, if_false, Bool.false_eq_true, bucketOf]
      rw [hq, pfBucket_appendToProgram_of_mem st.program_files p _ hmem]
      simp [keepFor, ht, hq]
    · simp only [aggStep, ht, if_false, Bool.false_eq_true, bucketOf]
      rw [pfBucket_appendToProgram_of_ne st.program_files _ _ p hq]
      simp [keepFor, hq]

theorem bucket_foldl (l : List (FileRecord × JObj)) :
    ∀ (st : AggState) (p : String),
      st.program_files.map Prod.fst = standardKeys →
      bucketOf (l.foldl aggStep st) p =
        bucketOf st p ++ l.filterMap (keepFor p) := by
  induction l with
  | nil => intro st p _; simp
  | cons pr l ih =>
    intro st p hkeys
    have hkeys' : (aggStep st pr).program_files.map Prod.fst = standardKeys := by
      rw [aggStep_map_fst]; exact hkeys
    rw [List.foldl_cons, ih (aggStep st pr) p hkeys', bucket_step st pr p hkeys]
    cases hk : keepFor p pr <;> simp [List.filterMap_cons, hk]

theorem pfBucket_init (ks : List String) (p : String) :
    pfBucket (ks.map fun k => (k, [])) p = [] := by
  induction ks with
  | nil => rfl
  | cons k ks ih =>
    rw [List.map_cons, pfBucket_cons]
    by_cases hk : k = p
    · rw [if_pos hk]
    · rw [if_neg hk, ih]

theorem bucket_aggregateAll (l : List (FileRecord × JObj)) (p : String) :
    bucketOf (aggregateAll l) p = l.filterMap (keepFor p) := by
  have hid : (Prod.fst ∘ fun p : String => (p, ([] : List ClassifiedRecord))) = id := rfl
  rw [aggregateAll, bucket_foldl l initAggState p (by
    simp [initAggState, List.map_map, hid])]
  simp [bucketOf, initAggState, pfBucket_init]

/-- C5: for every input batch and any two arrival orders of the pool's
results, the final ProgramGroup membership agrees bucket by bucket;
and, when every classification carries a boolean important field, a
program's bucket holds exactly the records classified important = false
whose path is attributed to that program. -/
theorem c5_order_independent_groups (files : List FileRecord)
    (oracle : Nat → Nat → OracleReply) (l₁ l₂ : List (FileRecord × JObj))
    (h₁ : List.Perm l₁ (poolResults oracle 0 files))
    (h₂ : List.Perm l₂ (poolResults oracle 0 files)) :
    (∀ p r, r ∈ bucketOf (aggregateAll l₁) p ↔
      r ∈ bucketOf (aggregateAll l₂) p) ∧
    ((∀ pr ∈ poolResults oracle 0 files,
        ∃ b, lookupField pr.2 "important" = some (JVal.jbool b)) →
      ∀ p r, r ∈ bucketOf (aggregateAll l₁) p ↔
        ∃ m cls, (m, cls) ∈ poolResults oracle 0 files ∧
          lookupField cls "important" = some (JVal.jbool false) ∧
          get_program_name m.path = p ∧ r = mkClassified m cls) := by
  have key : ∀ (l : List (FileRecord × JObj)),
      List.Perm l (poolResults oracle 0 files) →
      ∀ (p : String) (r : ClassifiedRecord),
        r ∈ bucketOf (aggregateAll l) p ↔
          ∃ pr ∈ poolResults oracle 0 files, keepFor p pr = some r := by
    intro l hl p r
    rw [bucket_aggregateAll, List.mem_filterMap]
    constructor
    · rintro ⟨pr, hpr, hk⟩
      exact ⟨pr, hl.mem_iff.mp hpr, hk⟩
    · rintro ⟨pr, hpr, hk⟩
      exact ⟨pr, hl.mem_iff.mpr hpr, hk⟩
  refine ⟨fun p r => (key l₁ h₁ p r).trans (key l₂ h₂ p r).symm, ?_⟩
  intro hb p r
  rw [key l₁ h₁ p r]
  constructor
  · rintro ⟨⟨m, cls⟩, hpr, hk⟩
    by_cases hcond : (getField cls "important").truthy = false ∧
        get_program_name m.path = p
    · obtain ⟨hfal, hprog⟩ := hcond
      have hmk : mkClassified m cls = r := by
        simpa [keepFor, hfal, hprog] using hk
      obtain ⟨b, hbb⟩ := hb (m, cls) hpr
      have hgf : getField cls "important" = JVal.jbool b := by
        simp [getField, hbb]
      have hbfalse : b = false := by
        rw [hgf] at hfal
        simpa [JVal.truthy] using hfal
      subst hbfalse
      exact ⟨m, cls, hpr, hbb, hprog, hmk.symm⟩
    · simp [keepFor, hcond] at hk
  · rintro ⟨m, cls, hpr, hlook, hprog, hr⟩
    refine ⟨(m, cls), hpr, ?_⟩
    have hfal : (getField cls "important").truthy = false := by
      simp [getField, hlook, JVal.truthy]
    simp [keepFor, hfal, hprog, hr]

/-- C5 witness: the concrete batch under the always-well-formed oracle,
with results arriving reversed versus in order, gives the "Android
Studio" bucket the characterized membership. -/
theorem c5_order_independent_groups_witness :
    mkClassified wRec1 wVerdict ∈
        bucketOf (aggregateAll w5Results.reverse) "Android Studio" ↔
      ∃ m cls, (m, cls) ∈ w5Results ∧
        lookupField cls "important" = some (JVal.jbool false) ∧
        get_program_name m.path = "Android Studio" ∧
        mkClassified wRec1 wVerdict = mkClassified m cls := by
  have h := c5_order_independent_groups wFiles w5Oracle
    w5Results.reverse w5Results (List.reverse_perm w5Results)
    (List.Perm.refl w5Results)
  refine h.2 ?_ "Android Studio" (mkClassified wRec1 wVerdict)
  have hres : poolResults w5Oracle 0 wFiles =
      [(wRec1, wVerdict),
       ({ path := "/private/var/tmp/b.log", size_mb := 3,
          mtime := "2024-01-02", is_dir := false }, wVerdict)] := by decide
  rw [hres]
  intro pr hpr
  simp only [List.mem_cons, List.not_mem_nil, or_false] at hpr
  rcases hpr with h1 | h1 <;> (subst h1; exact ⟨false, rfl⟩)

theorem tierMatches_nil (v : JVal) : tierMatches v [] = false := by
  cases v <;> rfl

/-- C6: the selection step includes a record exactly when it sits in
the bucket of a program that is not kept and its importance tier is in
that program's delete set; an empty mapping, and all-empty delete
sets, both yield the empty selection. -/
theorem c6_selection_planner (pf : List (String × List ClassifiedRecord))
    (keep : List String) (levels : String → List String) :
    (∀ r, r ∈ display_and_filter_files pf keep levels ↔
      ∃ p fs, (p, fs) ∈ pf ∧ r ∈ fs ∧ keep.contains p = false ∧
        tierMatches r.importance (levels p) = true) ∧
    display_and_filter_files [] keep levels = [] ∧
    ((∀ p, levels p = []) → display_and_filter_files pf keep levels = []) := by
  refine ⟨?_, rfl, ?_⟩
  · intro r
    rw [display_and_filter_files, List.mem_flatMap]
    constructor
    · rintro ⟨kv, hkv, hr⟩
      obtain ⟨p, fs⟩ := kv
      by_cases hc : (fs.isEmpty || keep.contains p) = true
      · rw [if_pos hc] at hr
        simp at hr
      · rw [if_neg hc] at hr
        rw [List.mem_filter] at hr
        have hc' : fs.isEmpty = false ∧ keep.contains p = false := by
          constructor <;> (by_contra hx; apply hc; simp at hx ⊢; simp [hx])
        exact ⟨p, fs, hkv, hr.1, hc'.2, hr.2⟩
    · rintro ⟨p, fs, hkv, hr, hkeep, ht⟩
      refine ⟨(p, fs), hkv, ?_⟩
      have hne : fs.isEmpty = false := by
        cases fs
        · simp at hr
        · rfl
      rw [if_neg (by rw [hne, hkeep]; simp)]
      exact List.mem_filter.mpr ⟨hr, ht⟩
  · intro hlev
    induction pf with
    | nil => rfl
    | cons kv rest ih =>
      rw [display_and_filter_files, List.flatMap_cons]
      rw [display_and_filter_files] at ih
      rw [ih, List.append_nil]
      split
      · rfl
      · rw [hlev kv.1]
        simp [tierMatches_nil]

/-- C6 witness: a concrete mapping with a kept bucket and a non-kept
bucket, with the Low tier selected for deletion everywhere, includes
the non-kept Low record and characterizes membership; empty inputs
yield the empty selection. -/
theorem c6_selection_planner_witness :
    (mkClassified wRec1 wVerdict ∈
        display_and_filter_files
          [("Android Studio", [mkClassified wRec1 wVerdict]),
           ("Transporter", [])]
          ["Transporter"] (fun _ => ["Low", "Medium"]) ↔
      ∃ p fs,
        (p, fs) ∈
          [("Android Studio", [mkClassified wRec1 wVerdict]),
           ("Transporter", [])] ∧
        mkClassified wRec1 wVerdict ∈ fs ∧
        List.contains ["Transporter"] p = false ∧
        tierMatches (mkClassified wRec1 wVerdict).importance ["Low", "Medium"] = true) ∧
    display_and_filter_files []
      ["Transporter"] (fun _ => ["Low", "Medium"]) = [] ∧
    display_and_filter_files
      [("Android Studio", [mkClassified wRec1 wVerdict]), ("Transporter", [])]
      ["Transporter"] (fun _ => []) = [] := by
  have h := c6_selection_planner
    [("Android Studio", [mkClassified wRec1 wVerdict]), ("Transporter", [])]
    ["Transporter"] (fun _ => ["Low", "Medium"])
  have h0 := c6_selection_planner
    [("Android Studio", [mkClassified wRec1 wVerdict]), ("Transporter", [])]
    ["Transporter"] (fun _ => ([] : List String))
  exact ⟨h.1 (mkClassified wRec1 wVerdict), h.2.1, h0.2.2 (fun _ => rfl)⟩

theorem commonPrefixLen_self_append (l r : List String) :
    commonPrefixLen l (l ++ r) = l.length := by
  induction l with
  | nil => rfl
  | cons a as ih => simp [commonPrefixLen, ih]

theorem relpath_under_home (home rest : List String) (h : rest ≠ []) :
    relpath (home ++ rest) home = rest := by
  unfold relpath
  rw [commonPrefixLen_self_append]
  simp only [Nat.sub_self, List.replicate_zero, List.nil_append, List.drop_left]
  cases rest with
  | nil => exact absurd rfl h
  | cons a as => rfl

/-- C7: a record under the reference root (the operator's home) is
moved to the backup root joined with its path relative to that root,
the destination's parent directories being created before the move. -/
theorem c7_backup_relative_path (home rest : List String) (h : rest ≠ []) :
    relpath (home ++ rest) home = rest ∧
    (move_to_backup home false (home ++ rest)).2 =
      backupDir home ++ relpath (home ++ rest) home ∧
    (move_to_backup home false (home ++ rest)).1 =
      [FsAction.mkdirs ((backupDir home ++ rest).dropLast),
       FsAction.move (home ++ rest) (backupDir home ++ rest),
       FsAction.logMoved (home ++ rest) (backupDir home ++ rest)] := by
  have hr := relpath_under_home home rest h
  exact ⟨hr, rfl, by simp [move_to_backup, hr]⟩

/-- C7 witness: the spec's concrete instance — a record at
~/Library/Caches/app/x.db with reference root ~ lands at
backup_root/Library/Caches/app/x.db. -/
theorem c7_backup_relative_path_witness :
    relpath (["Users", "op"] ++ ["Library", "Caches", "app", "x.db"])
        ["Users", "op"] = ["Library", "Caches", "app", "x.db"] ∧
    (move_to_backup ["Users", "op"] false
        (["Users", "op"] ++ ["Library", "Caches", "app", "x.db"])).2 =
      ["Users", "op", "SystemDataCleanupBackup",
       "Library", "Caches", "app", "x.db"] := by
  have h := c7_backup_relative_path ["Users", "op"]
    ["Library", "Caches", "app", "x.db"] (by decide)
  exact ⟨h.1, by rw [h.2.1, h.1]; rfl⟩

/-- C10: the aggregator decides retention by Python truthiness of the
classification's important field, not by boolean equality with false: a
falsy value of any type is retained into to_delete and the program's
bucket, any truthy value — including the string "false" — is
discarded, with no type validation; false, 0, "" and null are falsy
while "false" is truthy. -/
theorem c10_truthiness_retention (st : AggState) (m : FileRecord) (cls : JObj)
    (v : JVal) (hv : lookupField cls "important" = some v) :
    (v.truthy = true → aggStep st (m, cls) = st) ∧
    (v.truthy = false →
      (aggStep st (m, cls)).to_delete = st.to_delete ++ [mkClassified m cls] ∧
      (aggStep st (m, cls)).program_files =
        appendToProgram st.program_files (get_program_name m.path)
          (mkClassified m cls)) ∧
    (JVal.truthy (JVal.jbool false) = false ∧
     JVal.truthy (JVal.jnum 0) = false ∧
     JVal.truthy (JVal.jstr "") = false ∧
     JVal.truthy JVal.null = false ∧
     JVal.truthy (JVal.jstr "false") = true) := by
  have hg : getField cls "important" = v := by simp [getField, hv]
  refine ⟨?_, ?_, by decide⟩
  · intro ht
    simp [aggStep, hg, ht]
  · intro ht
    constructor <;> simp [aggStep, hg, ht]

/-- C10 witness: a verdict whose important field is the string "false"
is discarded, while one whose important field is the empty string is
retained. -/
theorem c10_truthiness_retention_witness :
    aggStep initAggState (wRec1,
      [("important", JVal.jstr "false"), ("importance", JVal.jstr "Low"),
       ("reason", JVal.jstr "r")]) = initAggState ∧
    (aggStep initAggState (wRec1,
      [("important", JVal.jstr ""), ("importance", JVal.jstr "Low"),
       ("reason", JVal.jstr "r")])).to_delete =
      initAggState.to_delete ++
        [mkClassified wRec1
          [("important", JVal.jstr ""), ("importance", JVal.jstr "Low"),
           ("reason", JVal.jstr "r")]] := by
  have h1 := c10_truthiness_retention initAggState wRec1
    [("important", JVal.jstr "false"), ("importance", JVal.jstr "Low"),
     ("reason", JVal.jstr "r")] (JVal.jstr "false") rfl
  have h2 := c10_truthiness_retention initAggState wRec1
    [("important", JVal.jstr ""), ("importance", JVal.jstr "Low"),
     ("reason", JVal.jstr "r")] (JVal.jstr "") rfl
  exact ⟨h1.1 (by decide), (h2.2.1 (by decide)).1⟩

/-- C8 counterexample: with dry mode on, the move loop over a concrete
one-record selection emits only the decision log line — in particular
it performs no directory creation — whereas the wet run of the same
selection does create the destination's parent directory.  This
refutes the claim that dry mode still performs all directory-creation. -/
theorem c8_dry_mode_counterexample :
    cleanupMovePhase ["Users", "me"] true
        [["Users", "me", "Library", "Caches", "x.db"]] =
      [FsAction.logWouldMove ["Users", "me", "Library", "Caches", "x.db"]] ∧
    FsAction.mkdirs ["Users", "me", "SystemDataCleanupBackup", "Library", "Caches"] ∈
      cleanupMovePhase ["Users", "me"] false
        [["Users", "me", "Library", "Caches", "x.db"]] := by decide

theorem applyActions_map_logWouldMove (l : List (List String)) :
    ∀ fs : FsState, applyActions fs (l.map FsAction.logWouldMove) = fs := by
  induction l with
  | nil => intro fs; rfl
  | cons p l ih => intro fs; exact ih fs

/-- C8 as amended: with dry mode on, the move loop skips the per-record
mover entirely — emitting exactly one "[DRY RUN] Would move" log line
per selected record and no directory-creation or move actions — so the
filesystem (sources included) is left unchanged while the full decision
log is still emitted. -/
theorem c8_dry_mode_amended (home : List String) (to_move : List (List String))
    (fs : FsState) :
    cleanupMovePhase home true to_move = to_move.map FsAction.logWouldMove ∧
    applyActions fs (cleanupMovePhase home true to_move) = fs := by
  have hmap : cleanupMovePhase home true to_move =
      to_move.map FsAction.logWouldMove := by
    induction to_move with
    | nil => rfl
    | cons p l ih =>
      rw [cleanupMovePhase, List.flatMap_cons]
      rw [cleanupMovePhase] at ih
      rw [ih]
      rfl
  refine ⟨hmap, ?_⟩
  rw [hmap]
  exact applyActions_map_logWouldMove to_move fs

theorem relpath_eq (path start : List String) :
    relpath path start =
      if (List.replicate (start.length - commonPrefixLen start path) ".." ++
            path.drop (commonPrefixLen start path)).isEmpty = true
      then ["."]
      else List.replicate (start.length - commonPrefixLen start path) ".." ++
        path.drop (commonPrefixLen start path) := rfl

theorem commonPrefixLen_le_length (a : List String) :
    ∀ b, commonPrefixLen a b ≤ a.length := by
  induction a with
  | nil => intro b; cases b <;> simp [commonPrefixLen]
  | cons x xs ih =>
    intro b
    cases b with
    | nil => simp [commonPrefixLen]
    | cons y ys =>
      by_cases h : x = y
      · simpa [commonPrefixLen, h] using ih ys
      · simp [commonPrefixLen, h]

theorem isPrefOf_iff_commonPrefixLen (a : List String) :
    ∀ b, isPrefOf a b = true ↔ commonPrefixLen a b = a.length := by
  induction a with
  | nil => intro b; cases b <;> simp [isPrefOf, commonPrefixLen]
  | cons x xs ih =>
    intro b
    cases b with
    | nil => simp [isPrefOf, commonPrefixLen]
    | cons y ys =>
      by_cases h : x = y
      · simp [isPrefOf, commonPrefixLen, h, ih ys]
      · simp [isPrefOf, commonPrefixLen, h]

theorem relpath_not_under (home p : List String)
    (h : isPrefOf home p = false) : ".." ∈ relpath p home := by
  have hlt : commonPrefixLen home p < home.length := by
    have hle := commonPrefixLen_le_length home p
    have hne : commonPrefixLen home p ≠ home.length := by
      intro he
      have := (isPrefOf_iff_commonPrefixLen home p).mpr he
      rw [this] at h
      exact Bool.true_eq_false.mp h
    omega
  obtain ⟨k, hk⟩ : ∃ k, home.length - commonPrefixLen home p = k + 1 :=
    ⟨home.length - commonPrefixLen home p - 1, by omega⟩
  rw [relpath_eq, hk]
  simp [List.replicate_succ]

theorem foldl_stepResolve_no_dots (ys : List String) :
    ∀ acc, "." ∉ ys → ".." ∉ ys → ys.foldl stepResolve acc = acc ++ ys := by
  induction ys with
  | nil => intro acc _ _; simp
  | cons y ys ih =>
    intro acc h1 h2
    have hy1 : y ≠ "." := fun hh => h1 (by rw [hh]; exact List.mem_cons_self _ _)
    have hy2 : y ≠ ".." := fun hh => h2 (by rw [hh]; exact List.mem_cons_self _ _)
    rw [List.foldl_cons,
      ih (stepResolve acc y) (fun hm => h1 (List.mem_cons_of_mem _ hm))
        (fun hm => h2 (List.mem_cons_of_mem _ hm))]
    rw [stepResolve, if_neg hy2, if_neg hy1]
    simp

theorem resolve_append (xs ys : List String) :
    resolveComponents (xs ++ ys) = ys.foldl stepResolve (resolveComponents xs) := by
  simp [resolveComponents, List.foldl_append]

theorem resolve_backup_climb (u : String) (hu1 : u ≠ "..") (hu2 : u ≠ ".") :
    resolveComponents ["Users", u, BACKUP_DIR_NAME, "..", ".."] = ["Users"] := by
  simp [resolveComponents, stepResolve, hu1, hu2, BACKUP_DIR_NAME]

theorem c9_case (u r0 r1 : String) (rtail rest : List String)
    (hu1 : u ≠ "..") (hu2 : u ≠ ".")
    (hr0 : r0 ≠ "Users") (hr1 : r1 ≠ BACKUP_DIR_NAME)
    (hclean1 : "." ∉ (r0 :: r1 :: rtail) ++ rest)
    (hclean2 : ".." ∉ (r0 :: r1 :: rtail) ++ rest) :
    ".." ∈ relpath ((r0 :: r1 :: rtail) ++ rest) ["Users", u] ∧
    isPrefOf (backupDir ["Users", u])
      (resolveComponents
        (move_to_backup ["Users", u] false ((r0 :: r1 :: rtail) ++ rest)).2) =
      false := by
  have hc : commonPrefixLen ["Users", u] ((r0 :: r1 :: rtail) ++ rest) = 0 := by
    simp [commonPrefixLen, Ne.symm hr0]
  have hrel : relpath ((r0 :: r1 :: rtail) ++ rest) ["Users", u] =
      ["..", ".."] ++ ((r0 :: r1 :: rtail) ++ rest) := by
    rw [relpath_eq, hc]
    simp [List.replicate_succ]
  constructor
  · rw [hrel]; simp
  · have hdest : (move_to_backup ["Users", u] false
        ((r0 :: r1 :: rtail) ++ rest)).2 =
        ["Users", u, BACKUP_DIR_NAME, "..", ".."] ++ ((r0 :: r1 :: rtail) ++ rest) := by
      show backupDir ["Users", u] ++ relpath _ _ = _
      rw [hrel]
      simp [backupDir]
    rw [hdest, resolve_append,
      foldl_stepResolve_no_dots _ _ hclean1 hclean2,
      resolve_backup_climb u hu1 hu2]
    by_cases hu : u = r0
    · simp [isPrefOf, backupDir, hu, Ne.symm hr1]
    · simp [isPrefOf, backupDir, hu]

/-- C9 counterexample: a concrete record not under the home directory
whose path happens to re-enter the backup area — its relative path does
contain "..", yet its resolved destination lies inside the backup root,
refuting the claim that every such destination resolves outside it. -/
theorem c9_nonhome_escape_counterexample :
    isPrefOf ["Users", "me"] ["Users", "SystemDataCleanupBackup", "foo"] = false ∧
    ".." ∈ relpath ["Users", "SystemDataCleanupBackup", "foo"] ["Users", "me"] ∧
    isPrefOf (backupDir ["Users", "me"])
      (resolveComponents
        (move_to_backup ["Users", "me"] false
          ["Users", "SystemDataCleanupBackup", "foo"]).2) = true := by decide

/-- C9 as amended: for every record not under the home directory the
computed relative path contains ".." components; for every record under
one of the scanner's non-home roots (with a home of the usual
/Users/name shape) the destination moreover resolves outside the
backup root — the escape can only fail for a path that itself re-enters
the backup area, as in the counterexample; and those non-home roots are
among the scanner's fixed roots, so such records reach the mover. -/
theorem c9_nonhome_escape_amended :
    (∀ home p, isPrefOf home p = false → ".." ∈ relpath p home) ∧
    (∀ (u : String) (root rest : List String), root ∈ nonHomeRoots →
      u ≠ ".." → u ≠ "." → "." ∉ rest → ".." ∉ rest →
      ".." ∈ relpath (root ++ rest) ["Users", u] ∧
      isPrefOf (backupDir ["Users", u])
        (resolveComponents
          (move_to_backup ["Users", u] false (root ++ rest)).2) = false) ∧
    (∀ home, ∀ root ∈ nonHomeRoots, root ∈ SCAN_DIRS home) := by
  refine ⟨fun home p h => relpath_not_under home p h, ?_, ?_⟩
  · intro u root rest hroot hu1 hu2 hc1 hc2
    simp only [nonHomeRoots, List.mem_cons, List.not_mem_nil, or_false] at hroot
    rcases hroot with h | h | h <;> subst h
    · exact c9_case u "Library" "Caches" [] rest hu1 hu2 (by decide) (by decide)
        (by simp [hc1]) (by simp [hc2])
    · exact c9_case u "private" "var" ["tmp"] rest hu1 hu2 (by decide) (by decide)
        (by simp [hc1]) (by simp [hc2])
    · exact c9_case u "private" "var" ["log"] rest hu1 hu2 (by decide) (by decide)
        (by simp [hc1]) (by simp [hc2])
  · intro home root hroot
    simp only [nonHomeRoots, List.mem_cons, List.not_mem_nil, or_false] at hroot
    rcases hroot with h | h | h <;> subst h <;> simp [SCAN_DIRS]

/-- C9 witness: a concrete record under /Library/Caches with home
/Users/me climbs out with ".." and resolves outside the backup root. -/
theorem c9_nonhome_escape_witness :
    ".." ∈ relpath (["Library", "Caches"] ++ ["foo.db"]) ["Users", "me"] ∧
    isPrefOf (backupDir ["Users", "me"])
      (resolveComponents
        (move_to_backup ["Users", "me"] false
          (["Library", "Caches"] ++ ["foo.db"])).2) = false :=
  c9_nonhome_escape_amended.2.1 "me" ["Library", "Caches"] ["foo.db"]
    (by decide) (by decide) (by decide) (by decide) (by decide)

end MacCleaner
